import Mathlib

/-!
Shallow embedding of `src/goCheck.ts` (vscode-go): the tool-invocation and
output-normalization engine.  JavaScript strings are modelled as `List Char`;
process execution, the vscode notification API and the injected collaborators
(`getBinPath`, `getGoRuntimePath` from `./goPath` and `getCoverage` from
`./goCover`, which are repository files not present under `src/`) are modelled
as explicit parameters.  The calls to `outputChannel.appendLine` are
display-only logging and are omitted from the model.
-/

namespace GoCheck

/-- The JavaScript regex class `\w`: ASCII letters, ASCII digits and underscore. -/
def isWordChar (c : Char) : Bool := c.isAlpha || c.isDigit || c == '_'

/-- The character class `[\w.\/]` of the path group of the diagnostic regex. -/
def isPathChar (c : Char) : Bool := isWordChar c || c == '.' || c == '/'

/-- Characters matched by `.` in a JavaScript regex: everything except the four
line terminators. -/
def isMsgChar (c : Char) : Bool :=
  !(c == '\n' || c == '\r' || c == '\u2028' || c == '\u2029')

/-- Numeric value of a digit string, as computed by the JavaScript unary `+`
on a string of decimal digits (`+lineStr`, `+charStr` in `runTool`). -/
def digitsToNat (ds : List Char) : Nat :=
  ds.foldl (fun n c => n * 10 + (c.toNat - '0'.toNat)) 0

/-- JavaScript `String.prototype.split` with a one-character separator:
always returns at least one (possibly empty) field, and keeps empty fields. -/
def splitOn (sep : Char) : List Char → List (List Char)
  | [] => [[]]
  | c :: rest =>
    if c = sep then [] :: splitOn sep rest
    else
      match splitOn sep rest with
      | [] => [[c]]
      | l :: ls => (c :: l) :: ls

/-- The `split('\n')` applied to a raw tool output in `runTool`. -/
def splitLines (s : List Char) : List (List Char) := splitOn '\n' s

/-- Node `path.basename` (posix, no suffix argument): strip trailing slashes,
then keep the part after the last remaining slash. -/
def basename (p : List Char) : List Char :=
  (((p.reverse.dropWhile (· == '/')).takeWhile (· != '/')).reverse)

/-- Node `path.dirname` (posix): the path up to (excluding) the separator in
front of the last component; `/` respectively `.` when there is none.  The
posix special case for a `//`-rooted two-slash prefix is kept. -/
def dirname (p : List Char) : List Char :=
  if p = [] then ['.']
  else
    let hasRoot := p.head? = some '/'
    let r1 := p.reverse.dropWhile (· == '/')
    let r2 := r1.dropWhile (· != '/')
    let r3 := r2.drop 1
    if r3 = [] then (if hasRoot then ['/'] else ['.'])
    else if hasRoot ∧ r3 = ['/'] then ['/', '/']
    else r3.reverse

/-- Segment normalization of an absolute path, as done by Node
`path.resolve`: empty and `.` segments vanish, `..` pops the previous
segment and is dropped at the root. -/
def normalizeSegments (acc : List (List Char)) : List (List Char) → List (List Char)
  | [] => acc.reverse
  | seg :: rest =>
    if seg = [] ∨ seg = ['.'] then normalizeSegments acc rest
    else if seg = ['.', '.'] then normalizeSegments acc.tail rest
    else normalizeSegments (seg :: acc) rest

/-- Node `path.resolve(cwd, b)` for the uses in `runTool`: `cwd` is the
directory of the checked file (absolute in every call made by `check`), `b`
is a basename.  A `path.resolve` result is always absolute. -/
def resolvePath (cwd b : List Char) : List Char :=
  match normalizeSegments []
      (splitOn '/' (if b.head? = some '/' then b else cwd ++ '/' :: b)) with
  | [] => ['/']
  | seg :: segs => '/' :: List.intercalate ['/'] (seg :: segs)

/-- The `ICheckResult` interface of `goCheck.ts`. -/
structure ICheckResult where
  file : List Char
  line : Nat
  char : Nat
  msg : List Char
  severity : List Char
deriving DecidableEq, Repr

/-- One `(class*):` step of the diagnostic regex: a maximal run of
`p`-characters followed by a literal colon; the run and the remainder after
the colon are returned.  Backtracking cannot help a failed maximal run,
because a shorter run would have to match the colon against a character
satisfying `p`. -/
def groupThenColon (p : Char → Bool) (s : List Char) :
    Option (List Char × List Char) :=
  match s.dropWhile p with
  | ':' :: r => some (s.takeWhile p, r)
  | _ => none

/-- The `(\d?)` group: at most one digit is taken from the front. -/
def colSplit : List Char → List Char × List Char
  | c :: rest => if c.isDigit then ([c], rest) else ([], c :: rest)
  | [] => ([], [])

/-- The `:*(\w*):* ` tail of the diagnostic regex: maximal colon run, maximal
word run, maximal colon run, then a mandatory space; returns the word run
and the rest of the line.  The three maximal runs are forced, because a
shortened run leaves its own kind of character where the next piece of the
pattern cannot match it. -/
def sevSpace (s : List Char) : Option (List Char × List Char) :=
  match (((s.dropWhile (· == ':')).dropWhile isWordChar).dropWhile (· == ':')) with
  | ' ' :: msg => some ((s.dropWhile (· == ':')).takeWhile isWordChar, msg)
  | _ => none

/-- Deterministic evaluation of the regex
`^([\w.\/]*):(\d+):(\d?):*(\w*):* (.*)$` of `runTool` against one line.
Each quantifier of the pattern is separated from its successor by a
character it cannot match, so this greedy maximal-munch reading is exactly
the backtracking regex semantics; the `(\d?)` group never needs to give its
digit back, because any match obtained that way also exists with the digit
kept (the following colon run may be empty).  The groups are returned in
pattern order: file, line digits, column digit, severity word, message;
the final `msg.all isMsgChar` check is the JavaScript dot, which cannot
match a line terminator. -/
def execCheckRegex (s : List Char) :
    Option (List Char × List Char × List Char × List Char × List Char) :=
  match groupThenColon isPathChar s with
  | none => none
  | some (file, r1) =>
    match groupThenColon Char.isDigit r1 with
    | none => none
    | some (lineStr, r2) =>
      if lineStr = [] then none
      else
        let cs := colSplit r2
        match sevSpace cs.2 with
        | none => none
        | some (sev, msg) =>
          if msg.all isMsgChar then some (file, lineStr, cs.1, sev, msg) else none

/-- One iteration of the line loop of `runTool`: the tab-continuation branch
(checked first), then the regex match with defaulting of column and
severity, basename resolution against `cwd`, and the push of the new
diagnostic. -/
def processLine (cwd severity : List Char) (ret : List ICheckResult) (ln : List Char) :
    List ICheckResult :=
  if ln.head? = some '\t' ∧ ret ≠ [] then
    match ret.getLast? with
    | some last => ret.dropLast ++ [{ last with msg := last.msg ++ '\n' :: ln }]
    | none => ret
  else
    match execCheckRegex ln with
    | none => ret
    | some (file, lineStr, charStr, reSeverity, msg) =>
      let line := digitsToNat lineStr
      let char0 := if charStr = [] then 0 else digitsToNat charStr
      let char := if char0 = 0 then 1 else char0
      let file1 := resolvePath cwd (basename file)
      let lineSeverity := if reSeverity ≠ [] then reSeverity else severity
      ret ++ [{ file := file1, line := line, char := char, msg := msg,
                severity := lineSeverity }]

/-- The full line loop of `runTool` over the split raw output. -/
def processLines (cwd severity : List Char) (lines : List (List Char)) :
    List ICheckResult :=
  lines.foldl (processLine cwd severity) []

/-- Outcome of one `cp.execFile` call: whether the reported error carried the
code ENOENT, and the two captured streams. -/
structure ExecOutcome where
  enoent : Bool
  stdout : List Char
  stderr : List Char
deriving DecidableEq, Repr

/-- Observable result of a resolved `runTool` promise: the diagnostic list it
resolves with, and the messages passed to `vscode.window.showInformationMessage`. -/
structure RunToolResult where
  diagnostics : List ICheckResult
  notifications : List (List Char)
deriving DecidableEq, Repr

/-- The `runTool` callback on the happy paths: the ENOENT branch notifies and
resolves with an empty list before any parsing; otherwise the designated
stream is split into lines and fed through the line loop. -/
def runTool (cmd : List Char) (args : List (List Char)) (cwd severity : List Char)
    (useStdErr : Bool) (notFoundError : List Char) (outcome : ExecOutcome) :
    RunToolResult :=
  if outcome.enoent then { diagnostics := [], notifications := [notFoundError] }
  else
    { diagnostics :=
        processLines cwd severity
          (splitLines (if useStdErr then outcome.stderr else outcome.stdout)),
      notifications := [] }

/-- The promise produced by `runTool`, with the try/catch of the callback made
explicit: an unexpected exception raised inside the parsing block
(`parseFault`) is caught and turned into a rejection, while the ENOENT
branch resolves before parsing starts. -/
def runToolWithFault (parseFault : Option (List Char)) (cmd : List Char)
    (args : List (List Char)) (cwd severity : List Char) (useStdErr : Bool)
    (notFoundError : List Char) (outcome : ExecOutcome) :
    Except (List Char) RunToolResult :=
  if outcome.enoent then
    .ok (runTool cmd args cwd severity useStdErr notFoundError outcome)
  else
    match parseFault with
    | some e => .error e
    | none => .ok (runTool cmd args cwd severity useStdErr notFoundError outcome)

/-- Value-level semantics of `Promise.all`: the result slots keep the order in
which the promises were passed, independently of completion timing, and a
rejected component rejects the whole. -/
def promiseAll {ε α : Type} : List (Except ε α) → Except ε (List α)
  | [] => .ok []
  | .error e :: _ => .error e
  | .ok a :: rest => (promiseAll rest).map (a :: ·)

/-- The workspace configuration keys read by `check`; the `!!` coercions are
modelled as `Bool` fields, missing arrays as explicit lists and the falsy
defaulting of `linter` by the empty list. -/
structure GoConfig where
  buildOnSave : Bool
  buildFlags : List (List Char)
  buildTags : List Char
  lintOnSave : Bool
  linter : List Char
  lintFlags : List (List Char)
  vetOnSave : Bool
  vetFlags : List (List Char)
  coverOnSave : Bool

/-- Ambient collaborators of `check` together with the per-invocation process
outcomes.  `goRuntimePath` models `getGoRuntimePath()` and `binPath` models
`getBinPath` (both from `./goPath`, a repository file not present under
`src/`); `goroot` models `process.env` GOROOT; `tmpdir` models
`os.tmpdir()`.  The fault fields inject the unexpected-exception case of
the callback try/catch of each spawned tool. -/
structure CheckEnv where
  goRuntimePath : List Char
  binPath : List Char → List Char
  goroot : List Char
  tmpdir : List Char
  buildOutcome : ExecOutcome
  lintOutcome : ExecOutcome
  vetOutcome : ExecOutcome
  buildFault : Option (List Char)
  lintFault : Option (List Char)
  vetFault : Option (List Char)
  /-- Modelled from the spec: the Coverage Collector `getCoverage` (file
  `./goCover`, not present under `src/`) resolves with already-structured
  diagnostics; it is injected here as a plain list. -/
  coverageResult : List ICheckResult

/-- The test `filename.match(/_test.go$/i)`: the last eight characters match
`_test.go`, with the dot matching any character and letters compared
case-insensitively. -/
def matchTestSuffix : List Char → Bool
  | [c1, c2, c3, c4, c5, _, c7, c8] =>
    c1 == '_' && c2.toLower == 't' && c3.toLower == 'e' && c4.toLower == 's' &&
      c5.toLower == 't' && c7.toLower == 'g' && c8.toLower == 'o'
  | _ => false

/-- Whether `filename` is treated as a test file by the build check. -/
def isTestFileName (filename : List Char) : Bool :=
  matchTestSuffix (filename.drop (filename.length - 8))

/-- The temporary build output
`path.normalize(path.join(os.tmpdir(), 'go-code-check'))`; for this shape
join-then-normalize is plain concatenation. -/
def tmppath (env : CheckEnv) : List Char := env.tmpdir ++ '/' :: "go-code-check".toList

/-- Argument vector of the build check, including the test-build variant. -/
def buildArgs (goConfig : GoConfig) (filename : List Char) (env : CheckEnv) :
    List (List Char) :=
  let buildTags := '"' :: goConfig.buildTags ++ ['"']
  if isTestFileName filename then
    ["test".toList, "-copybinary".toList, "-o".toList, tmppath env, "-c".toList,
      "-tags".toList, buildTags] ++ goConfig.buildFlags ++ [".".toList]
  else
    ["build".toList, "-o".toList, tmppath env, "-tags".toList, buildTags] ++
      goConfig.buildFlags ++ [".".toList]

/-- Missing-go message of the build check (source line 82, which lacks the
opening quote before the GOROOT value). -/
def buildNotFoundMsg (env : CheckEnv) : List Char :=
  "No \"go\" binary could be found in GOROOT: ".toList ++ env.goroot ++ ['"']

/-- Missing-go message of the vet check (source line 110). -/
def vetNotFoundMsg (env : CheckEnv) : List Char :=
  "No \"go\" binary could be found in GOROOT: \"".toList ++ env.goroot ++ ['"']

/-- The configured linter with its falsy default: `goConfig['linter'] || 'golint'`. -/
def linterName (goConfig : GoConfig) : List Char :=
  if goConfig.linter = [] then "golint".toList else goConfig.linter

/-- Missing-linter message of the lint check. -/
def lintNotFoundMsg (goConfig : GoConfig) : List Char :=
  "The '".toList ++ linterName goConfig ++
    "' command is not available.  Please install it.".toList

/-- Argument vector of the lint check: the filename is appended only for the
default linter. -/
def lintArgs (goConfig : GoConfig) (filename : List Char) : List (List Char) :=
  goConfig.lintFlags ++
    (if linterName goConfig = "golint".toList then [filename] else [])

/-- Argument vector of the vet check. -/
def vetArgs (goConfig : GoConfig) (filename : List Char) : List (List Char) :=
  ["tool".toList, "vet".toList] ++ goConfig.vetFlags ++ [filename]

/-- The build-check promise started by `check`: severity error, reads stderr. -/
def buildCheckE (filename : List Char) (goConfig : GoConfig) (env : CheckEnv) :
    Except (List Char) (List ICheckResult) :=
  (runToolWithFault env.buildFault env.goRuntimePath (buildArgs goConfig filename env)
      (dirname filename) "error".toList true (buildNotFoundMsg env)
      env.buildOutcome).map (·.diagnostics)

/-- The lint-check promise started by `check`: severity warning, reads stdout. -/
def lintCheckE (filename : List Char) (goConfig : GoConfig) (env : CheckEnv) :
    Except (List Char) (List ICheckResult) :=
  (runToolWithFault env.lintFault (env.binPath (linterName goConfig))
      (lintArgs goConfig filename) (dirname filename) "warning".toList false
      (lintNotFoundMsg goConfig) env.lintOutcome).map (·.diagnostics)

/-- The vet-check promise started by `check`: severity warning, reads stderr. -/
def vetCheckE (filename : List Char) (goConfig : GoConfig) (env : CheckEnv) :
    Except (List Char) (List ICheckResult) :=
  (runToolWithFault env.vetFault env.goRuntimePath (vetArgs goConfig filename)
      (dirname filename) "warning".toList true (vetNotFoundMsg env)
      env.vetOutcome).map (·.diagnostics)

/-- The `check` orchestrator: starts each enabled check in the fixed order
build, lint, vet, coverage and resolves with the flattened concatenation of
the settled results (`Promise.all` followed by `[].concat.apply([], ...)`). -/
def check (filename : List Char) (goConfig : GoConfig) (env : CheckEnv) :
    Except (List Char) (List ICheckResult) :=
  (promiseAll
      ((if goConfig.buildOnSave then [buildCheckE filename goConfig env] else []) ++
       (if goConfig.lintOnSave then [lintCheckE filename goConfig env] else []) ++
       (if goConfig.vetOnSave then [vetCheckE filename goConfig env] else []) ++
       (if goConfig.coverOnSave then [Except.ok env.coverageResult] else []))).map
    List.flatten

/-- Diagnostic list the build check contributes when it settles successfully. -/
def buildCheckDiags (filename : List Char) (goConfig : GoConfig) (env : CheckEnv) :
    List ICheckResult :=
  (runTool env.goRuntimePath (buildArgs goConfig filename env) (dirname filename)
    "error".toList true (buildNotFoundMsg env) env.buildOutcome).diagnostics

/-- Diagnostic list the lint check contributes when it settles successfully. -/
def lintCheckDiags (filename : List Char) (goConfig : GoConfig) (env : CheckEnv) :
    List ICheckResult :=
  (runTool (env.binPath (linterName goConfig)) (lintArgs goConfig filename)
    (dirname filename) "warning".toList false (lintNotFoundMsg goConfig)
    env.lintOutcome).diagnostics

/-- Diagnostic list the vet check contributes when it settles successfully. -/
def vetCheckDiags (filename : List Char) (goConfig : GoConfig) (env : CheckEnv) :
    List ICheckResult :=
  (runTool env.goRuntimePath (vetArgs goConfig filename) (dirname filename)
    "warning".toList true (vetNotFoundMsg env) env.vetOutcome).diagnostics

/-- A raw output line of the canonical diagnostic shape
`path:line:col:sev: msg`, built from its five components. -/
def diagnosticLine (path lineDs colDs sev msg : List Char) : List Char :=
  path ++ ':' :: (lineDs ++ ':' :: (colDs ++ ':' :: (sev ++ ':' :: ' ' :: msg)))

/-- Position-and-severity key of a diagnostic, used to state order
preservation independently of later message continuations. -/
def diagKey (d : ICheckResult) : List Char × Nat × Nat × List Char :=
  (d.file, d.line, d.char, d.severity)

/-- A sample already-normalized coverage diagnostic, used as witness input. -/
def sampleDiag : ICheckResult :=
  { file := "/proj/c.go".toList, line := 7, char := 1,
    msg := "cover gap".toList, severity := "warning".toList }

/-- A sample configuration with all four checks enabled, used as witness input. -/
def sampleConfig : GoConfig :=
  { buildOnSave := true, buildFlags := [], buildTags := [], lintOnSave := true,
    linter := [], lintFlags := [], vetOnSave := true, vetFlags := [],
    coverOnSave := true }

/-- A sample environment in which every tool runs and produces one
diagnostic line, used as witness input. -/
def sampleEnv : CheckEnv :=
  { goRuntimePath := "/usr/local/go/bin/go".toList,
    binPath := fun name => "/usr/bin/".toList ++ name,
    goroot := "/usr/local/go".toList,
    tmpdir := "/tmp".toList,
    buildOutcome := { enoent := false, stdout := [], stderr := "b.go:1:2:err: m1\n".toList },
    lintOutcome := { enoent := false, stdout := "l.go:3:4: m2\n".toList, stderr := [] },
    vetOutcome := { enoent := false, stdout := [], stderr := "v.go:5:6: m3\n".toList },
    buildFault := none, lintFault := none, vetFault := none,
    coverageResult := [sampleDiag] }

/-- The sample environment with the go binary missing for the build check. -/
def sampleEnvNoGo : CheckEnv :=
  { sampleEnv with buildOutcome := { enoent := true, stdout := [], stderr := [] } }

/-- The sample environment with an injected internal parse fault in the build
check. -/
def sampleEnvFault : CheckEnv :=
  { sampleEnv with buildFault := some "boom".toList }

/-! Helper lemmas. -/

theorem takeWhile_append_cons {p : Char → Bool} {xs : List Char} {y : Char}
    (ys : List Char) (hxs : ∀ x ∈ xs, p x = true) (hy : p y = false) :
    (xs ++ y :: ys).takeWhile p = xs := by
  induction xs with
  | nil => simp [List.takeWhile_cons, hy]
  | cons a t ih =>
    have ha : p a = true := hxs a (List.mem_cons_self a t)
    simp only [List.cons_append, List.takeWhile_cons, ha, if_true]
    rw [ih (fun x hx => hxs x (List.mem_cons_of_mem _ hx))]

theorem dropWhile_append_cons {p : Char → Bool} {xs : List Char} {y : Char}
    (ys : List Char) (hxs : ∀ x ∈ xs, p x = true) (hy : p y = false) :
    (xs ++ y :: ys).dropWhile p = y :: ys := by
  induction xs with
  | nil => simp [List.dropWhile_cons, hy]
  | cons a t ih =>
    have ha : p a = true := hxs a (List.mem_cons_self a t)
    simp only [List.cons_append, List.dropWhile_cons, ha, if_true]
    exact ih (fun x hx => hxs x (List.mem_cons_of_mem _ hx))

theorem one_le_forced (x : Nat) : 1 ≤ if x = 0 then 1 else x := by
  by_cases hx : x = 0
  · simp [hx]
  · rw [if_neg hx]
    exact Nat.pos_of_ne_zero hx

theorem word_not_colon {c : Char} (h : isWordChar c = true) : (c == ':') = false := by
  rcases eq_or_ne c ':' with rfl | hne
  · exact absurd h (by decide)
  · simp [hne]

theorem groupThenColon_eq {p : Char → Bool} {xs : List Char} (ys : List Char)
    (hxs : ∀ x ∈ xs, p x = true) (hcolon : p ':' = false) :
    groupThenColon p (xs ++ ':' :: ys) = some (xs, ys) := by
  unfold groupThenColon
  rw [dropWhile_append_cons ys hxs hcolon, takeWhile_append_cons ys hxs hcolon]
  rfl

theorem colSplit_wf (ys : List Char) {colDs : List Char}
    (hcol : colDs = [] ∨ ∃ d, colDs = [d] ∧ d.isDigit = true) :
    colSplit (colDs ++ ':' :: ys) = (colDs, ':' :: ys) := by
  rcases hcol with rfl | ⟨d, rfl, hd⟩
  · simp [colSplit, show (':'.isDigit) = false from rfl]
  · simp [colSplit, hd]

theorem sevSpace_wf (msg : List Char) {sev : List Char}
    (hsev : ∀ c ∈ sev, isWordChar c = true) :
    sevSpace (':' :: (sev ++ ':' :: ' ' :: msg)) = some (sev, msg) := by
  have hstep : (':' :: (sev ++ ':' :: ' ' :: msg)).dropWhile (· == ':') =
      (sev ++ ':' :: ' ' :: msg).dropWhile (· == ':') := by
    simp [List.dropWhile_cons]
  cases sev with
  | nil =>
    unfold sevSpace
    rw [hstep]
    simp [List.dropWhile_cons, List.takeWhile_cons,
      show isWordChar ' ' = false from by decide]
  | cons c t =>
    have hc : isWordChar c = true := hsev c (List.mem_cons_self c t)
    have hcol : (c == ':') = false := word_not_colon hc
    have hdw : ((c :: t) ++ ':' :: ' ' :: msg).dropWhile (· == ':') =
        (c :: t) ++ ':' :: ' ' :: msg := by
      simp [List.dropWhile_cons, hcol]
    have hall : (':' :: ((c :: t) ++ ':' :: ' ' :: msg)).dropWhile (· == ':') =
        (c :: t) ++ ':' :: ' ' :: msg := hstep.trans hdw
    have htk : ((c :: t) ++ ':' :: ' ' :: msg).takeWhile isWordChar = c :: t :=
      takeWhile_append_cons (' ' :: msg) hsev (by decide)
    have hdr : ((c :: t) ++ ':' :: ' ' :: msg).dropWhile isWordChar =
        ':' :: ' ' :: msg :=
      dropWhile_append_cons (' ' :: msg) hsev (by decide)
    unfold sevSpace
    rw [hall, hdr, htk]
    simp [List.dropWhile_cons]

theorem execCheckRegex_diagnosticLine
    (path lineDs colDs sev msg : List Char)
    (hpath : ∀ c ∈ path, isPathChar c = true)
    (hline0 : lineDs ≠ [])
    (hline : ∀ c ∈ lineDs, c.isDigit = true)
    (hcol : colDs = [] ∨ ∃ d, colDs = [d] ∧ d.isDigit = true)
    (hsev : ∀ c ∈ sev, isWordChar c = true)
    (hmsg : msg.all isMsgChar = true) :
    execCheckRegex (diagnosticLine path lineDs colDs sev msg) =
      some (path, lineDs, colDs, sev, msg) := by
  have h1 : groupThenColon isPathChar (diagnosticLine path lineDs colDs sev msg) =
      some (path, lineDs ++ ':' :: (colDs ++ ':' :: (sev ++ ':' :: ' ' :: msg))) := by
    unfold diagnosticLine
    exact groupThenColon_eq
      (lineDs ++ ':' :: (colDs ++ ':' :: (sev ++ ':' :: ' ' :: msg))) hpath (by decide)
  have h2 : groupThenColon Char.isDigit
      (lineDs ++ ':' :: (colDs ++ ':' :: (sev ++ ':' :: ' ' :: msg))) =
      some (lineDs, colDs ++ ':' :: (sev ++ ':' :: ' ' :: msg)) :=
    groupThenColon_eq (colDs ++ ':' :: (sev ++ ':' :: ' ' :: msg)) hline (by decide)
  have h3 : colSplit (colDs ++ ':' :: (sev ++ ':' :: ' ' :: msg)) =
      (colDs, ':' :: (sev ++ ':' :: ' ' :: msg)) :=
    colSplit_wf (sev ++ ':' :: ' ' :: msg) hcol
  have h4 : sevSpace (':' :: (sev ++ ':' :: ' ' :: msg)) = some (sev, msg) :=
    sevSpace_wf msg hsev
  simp only [execCheckRegex, h1, h2, h3, h4, if_neg hline0, hmsg, if_true]

theorem execCheckRegex_tab_none {ln : List Char} (h : ln.head? = some '\t') :
    execCheckRegex ln = none := by
  cases ln with
  | nil => cases h
  | cons c t =>
    have hc : c = '\t' := by simpa using h
    subst hc
    unfold execCheckRegex groupThenColon
    simp [List.dropWhile_cons, show isPathChar '\t' = false from by decide]

theorem runToolWithFault_none (cmd : List Char) (args : List (List Char))
    (cwd severity : List Char) (useStdErr : Bool) (nf : List Char)
    (outcome : ExecOutcome) :
    runToolWithFault none cmd args cwd severity useStdErr nf outcome =
      .ok (runTool cmd args cwd severity useStdErr nf outcome) := by
  unfold runToolWithFault
  split <;> rfl

theorem runToolWithFault_ok {fault : Option (List Char)} {cmd : List Char}
    {args : List (List Char)} {cwd severity : List Char} {useStdErr : Bool}
    {nf : List Char} {outcome : ExecOutcome} {res : RunToolResult}
    (h : runToolWithFault fault cmd args cwd severity useStdErr nf outcome = .ok res) :
    res = runTool cmd args cwd severity useStdErr nf outcome := by
  unfold runToolWithFault at h
  by_cases he : outcome.enoent = true
  · rw [if_pos he] at h
    exact (Except.ok.injEq .. ▸ h).symm
  · rw [if_neg he] at h
    cases fault with
    | none => exact (Except.ok.injEq .. ▸ h).symm
    | some e => cases h

theorem buildCheckE_eq (filename : List Char) (goConfig : GoConfig) (env : CheckEnv)
    (h : env.buildFault = none) :
    buildCheckE filename goConfig env = .ok (buildCheckDiags filename goConfig env) := by
  unfold buildCheckE buildCheckDiags
  rw [h, runToolWithFault_none]
  rfl

theorem lintCheckE_eq (filename : List Char) (goConfig : GoConfig) (env : CheckEnv)
    (h : env.lintFault = none) :
    lintCheckE filename goConfig env = .ok (lintCheckDiags filename goConfig env) := by
  unfold lintCheckE lintCheckDiags
  rw [h, runToolWithFault_none]
  rfl

theorem vetCheckE_eq (filename : List Char) (goConfig : GoConfig) (env : CheckEnv)
    (h : env.vetFault = none) :
    vetCheckE filename goConfig env = .ok (vetCheckDiags filename goConfig env) := by
  unfold vetCheckE vetCheckDiags
  rw [h, runToolWithFault_none]
  rfl

theorem runTool_enoent {outcome : ExecOutcome} (cmd : List Char)
    (args : List (List Char)) (cwd severity : List Char) (useStdErr : Bool)
    (nf : List Char) (h : outcome.enoent = true) :
    runTool cmd args cwd severity useStdErr nf outcome =
      { diagnostics := [], notifications := [nf] } := by
  unfold runTool
  rw [if_pos h]

theorem promiseAll_error_of_mem {ε α : Type} {ps : List (Except ε α)} {e : ε}
    (h : Except.error e ∈ ps) : ∃ e2, promiseAll ps = .error e2 := by
  induction ps with
  | nil => cases h
  | cons p rest ih =>
    cases p with
    | error e1 => exact ⟨e1, rfl⟩
    | ok a =>
      rcases List.mem_cons.mp h with hp | hp
      · cases hp
      · rcases ih hp with ⟨e2, he2⟩
        exact ⟨e2, by simp [promiseAll, he2, Except.map]⟩

theorem promiseAll_ok_mem {ε α : Type} {ps : List (Except ε α)} {rs : List α}
    (h : promiseAll ps = .ok rs) : ∀ c ∈ rs, Except.ok c ∈ ps := by
  induction ps generalizing rs with
  | nil =>
    simp only [promiseAll] at h
    cases h
    intro c hc
    cases hc
  | cons p rest ih =>
    cases p with
    | error e1 => cases h
    | ok a =>
      simp only [promiseAll] at h
      cases hrest : promiseAll rest with
      | error e2 => rw [hrest] at h; cases h
      | ok rs2 =>
        rw [hrest] at h
        simp only [Except.map] at h
        cases h
        intro c hc
        rcases List.mem_cons.mp hc with hp | hp
        · subst hp; exact List.mem_cons_self ..
        · exact List.mem_cons_of_mem _ (ih hrest c hp)

theorem processLine_key_extension (cwd severity : List Char) (ret : List ICheckResult)
    (ln : List Char) :
    (processLine cwd severity ret ln).map diagKey = ret.map diagKey ∨
      ∃ k, (processLine cwd severity ret ln).map diagKey = ret.map diagKey ++ [k] := by
  rcases List.eq_nil_or_concat ret with rfl | ⟨ds, d, rfl⟩
  · unfold processLine
    rw [if_neg (by simp)]
    cases hr : execCheckRegex ln with
    | none => exact Or.inl rfl
    | some g =>
      rcases g with ⟨file, lineStr, charStr, reSeverity, msg⟩
      right
      simp only [List.nil_append, List.map_append, List.map_cons, List.map_nil]
      exact ⟨_, rfl⟩
  · simp only [List.concat_eq_append]
    unfold processLine
    by_cases hcond : ln.head? = some '\t' ∧ ds ++ [d] ≠ ([] : List ICheckResult)
    · rw [if_pos hcond]
      rw [List.getLast?_concat, List.dropLast_concat]
      left
      simp [diagKey]
    · rw [if_neg hcond]
      cases hr : execCheckRegex ln with
      | none => exact Or.inl rfl
      | some g =>
        rcases g with ⟨file, lineStr, charStr, reSeverity, msg⟩
        right
        simp only [List.map_append, List.map_cons, List.map_nil]
        exact ⟨_, rfl⟩

theorem resolvePath_head (cwd b : List Char) :
    (resolvePath cwd b).head? = some '/' := by
  unfold resolvePath
  split <;> rfl

theorem processLine_inv (cwd severity : List Char) (ret : List ICheckResult)
    (ln : List Char)
    (hret : ∀ d ∈ ret, 1 ≤ d.char ∧ d.file.head? = some '/') :
    ∀ d ∈ processLine cwd severity ret ln,
      1 ≤ d.char ∧ d.file.head? = some '/' := by
  rcases List.eq_nil_or_concat ret with rfl | ⟨ds, d0, rfl⟩
  · unfold processLine
    rw [if_neg (by simp)]
    cases hr : execCheckRegex ln with
    | none => exact hret
    | some g =>
      rcases g with ⟨file, lineStr, charStr, reSeverity, msg⟩
      intro d hd
      simp only [List.nil_append, List.mem_singleton] at hd
      subst hd
      refine ⟨?_, resolvePath_head ..⟩
      exact one_le_forced _
  · simp only [List.concat_eq_append] at hret ⊢
    unfold processLine
    by_cases hcond : ln.head? = some '\t' ∧ ds ++ [d0] ≠ ([] : List ICheckResult)
    · rw [if_pos hcond, List.getLast?_concat, List.dropLast_concat]
      intro d hd
      rcases List.mem_append.mp hd with hds | hlast
      · exact hret d (List.mem_append.mpr (Or.inl hds))
      · rcases List.mem_singleton.mp hlast with rfl
        have h0 := hret d0 (List.mem_append.mpr (Or.inr (List.mem_singleton.mpr rfl)))
        exact ⟨h0.1, h0.2⟩
    · rw [if_neg hcond]
      cases hr : execCheckRegex ln with
      | none => exact hret
      | some g =>
        rcases g with ⟨file, lineStr, charStr, reSeverity, msg⟩
        intro d hd
        rcases List.mem_append.mp hd with hds | hnew
        · exact hret d hds
        · rcases List.mem_singleton.mp hnew with rfl
          refine ⟨?_, resolvePath_head ..⟩
          exact one_le_forced _

theorem processLines_inv (cwd severity : List Char) (lines : List (List Char)) :
    ∀ d ∈ processLines cwd severity lines,
      1 ≤ d.char ∧ d.file.head? = some '/' := by
  have main : ∀ (ls : List (List Char)) (ret : List ICheckResult),
      (∀ d ∈ ret, 1 ≤ d.char ∧ d.file.head? = some '/') →
      ∀ d ∈ ls.foldl (processLine cwd severity) ret,
        1 ≤ d.char ∧ d.file.head? = some '/' := by
    intro ls
    induction ls with
    | nil => intro ret hret; exact hret
    | cons l rest ih =>
      intro ret hret
      exact ih _ (processLine_inv cwd severity ret l hret)
  exact main lines [] (by intro d hd; cases hd)

theorem runTool_inv (cmd : List Char) (args : List (List Char))
    (cwd severity : List Char) (useStdErr : Bool) (nf : List Char)
    (outcome : ExecOutcome) :
    ∀ d ∈ (runTool cmd args cwd severity useStdErr nf outcome).diagnostics,
      1 ≤ d.char ∧ d.file.head? = some '/' := by
  unfold runTool
  split
  · intro d hd; cases hd
  · dsimp only
    exact processLines_inv _ _ _

theorem except_map_ok {ε α β : Type} {f : α → β} {x : Except ε α} {c : β}
    (h : x.map f = .ok c) : ∃ a, x = .ok a ∧ c = f a := by
  cases x with
  | error e => cases h
  | ok a =>
    refine ⟨a, rfl, ?_⟩
    simpa [Except.map] using h.symm

theorem mem_ite_singleton {α : Type} {x y : α} {c : Prop} [Decidable c]
    (h : x ∈ (if c then [y] else [])) : x = y := by
  split at h
  · simpa using h
  · exact absurd h (List.not_mem_nil x)

theorem basename_discards_dir (dir leaf : List Char) (h1 : leaf ≠ [])
    (h2 : ∀ c ∈ leaf, (c == '/') = false) :
    basename (dir ++ '/' :: leaf) = leaf := by
  have hrev : (dir ++ '/' :: leaf).reverse = leaf.reverse ++ '/' :: dir.reverse := by
    simp
  obtain ⟨c, t, hct⟩ : ∃ c t, leaf.reverse = c :: t := by
    cases hl : leaf.reverse with
    | nil => exact absurd (by simpa using hl) h1
    | cons c t => exact ⟨c, t, rfl⟩
  have hrevmem : ∀ x ∈ leaf.reverse, (x == '/') = false := by
    intro x hx
    exact h2 x (List.mem_reverse.mp hx)
  have hc : (c == '/') = false := hrevmem c (hct ▸ List.mem_cons_self c t)
  have hdrop : (leaf.reverse ++ '/' :: dir.reverse).dropWhile (· == '/') =
      leaf.reverse ++ '/' :: dir.reverse := by
    rw [hct]
    simp only [List.cons_append, List.dropWhile_cons, hc]
    simp
  have hne : ∀ x ∈ leaf.reverse, (x != '/') = true := by
    intro x hx
    simp [bne, hrevmem x hx]
  have htake : (leaf.reverse ++ '/' :: dir.reverse).takeWhile (· != '/') =
      leaf.reverse :=
    takeWhile_append_cons dir.reverse hne (by decide)
  unfold basename
  rw [hrev, hdrop, htake, List.reverse_reverse]

/-- C1 counterexample: on the well-formed input line built from path `a.go`,
line `5`, the two-digit column `12`, empty severity and message `boom`, the
parser produces a diagnostic with column 1 and severity `2` instead of
column 12 and the default severity `error`, so the claim fails as stated. -/
theorem parse_wellformed_line_counterexample :
    processLines "/proj".toList "error".toList
        [diagnosticLine "a.go".toList ['5'] ['1', '2'] [] "boom".toList] =
      [{ file := "/proj/a.go".toList, line := 5, char := 1,
         msg := "boom".toList, severity := ['2'] }] ∧
    ¬ processLines "/proj".toList "error".toList
        [diagnosticLine "a.go".toList ['5'] ['1', '2'] [] "boom".toList] =
      [{ file := "/proj/a.go".toList, line := 5, char := 12,
         msg := "boom".toList, severity := "error".toList }] := by
  constructor
  · decide
  · decide

/-- C1 (amended: the column field holds at most one digit): parsing a single
raw line of the shape `path:line:col:sev: msg` with a word-dot-slash path,
a nonempty digit line field, a column field of at most one digit, a
word-character severity field and a terminator-free message yields exactly
one diagnostic whose line is the parsed line number, whose column is the
parsed column forced to 1 when it is 0 or empty, whose severity is the
inline severity when nonempty and otherwise the supplied default, and whose
message is the remainder of the line. -/
theorem parse_wellformed_line (cwd defaultSeverity path lineDs colDs sev msg : List Char)
    (hpath : ∀ c ∈ path, isPathChar c = true)
    (hline0 : lineDs ≠ [])
    (hline : ∀ c ∈ lineDs, c.isDigit = true)
    (hcol : colDs = [] ∨ ∃ d, colDs = [d] ∧ d.isDigit = true)
    (hsev : ∀ c ∈ sev, isWordChar c = true)
    (hmsg : msg.all isMsgChar = true) :
    processLines cwd defaultSeverity [diagnosticLine path lineDs colDs sev msg] =
      [{ file := resolvePath cwd (basename path),
         line := digitsToNat lineDs,
         char := if (if colDs = [] then 0 else digitsToNat colDs) = 0 then 1
                 else (if colDs = [] then 0 else digitsToNat colDs),
         msg := msg,
         severity := if sev ≠ [] then sev else defaultSeverity }] := by
  have hre := execCheckRegex_diagnosticLine path lineDs colDs sev msg hpath hline0 hline
    hcol hsev hmsg
  have h1 : processLines cwd defaultSeverity [diagnosticLine path lineDs colDs sev msg] =
      processLine cwd defaultSeverity [] (diagnosticLine path lineDs colDs sev msg) := rfl
  rw [h1]
  unfold processLine
  rw [if_neg (by simp), hre]
  rfl

/-- C1 witness: the amended theorem applied to the concrete line
`main.go:10:0: undeclared name: foo` with default severity `error`. -/
theorem parse_wellformed_line_witness :
    (∀ c ∈ "main.go".toList, isPathChar c = true) ∧
    processLines "/proj".toList "error".toList
        [diagnosticLine "main.go".toList ['1', '0'] ['0'] [] "undeclared name: foo".toList] =
      [{ file := "/proj/main.go".toList, line := 10, char := 1,
         msg := "undeclared name: foo".toList, severity := "error".toList }] :=
  ⟨by decide,
    parse_wellformed_line "/proj".toList "error".toList "main.go".toList ['1', '0'] ['0']
      [] "undeclared name: foo".toList (by decide) (by decide) (by decide)
      (Or.inr ⟨'0', rfl, by decide⟩) (by decide) (by decide)⟩

/-- C2: with no internal parse faults, `check` resolves with the
concatenation of the enabled checks' diagnostic lists in the fixed order
build, lint, vet, coverage; the combined length is the sum of the
individual lengths; and each processed line only ever appends to the
diagnostic sequence already produced (so each check keeps its tool's line
order). -/
theorem check_fixed_order_concat (filename : List Char) (goConfig : GoConfig)
    (env : CheckEnv) (hb : env.buildFault = none) (hl : env.lintFault = none)
    (hv : env.vetFault = none) :
    check filename goConfig env = .ok
      ((if goConfig.buildOnSave then buildCheckDiags filename goConfig env else []) ++
       ((if goConfig.lintOnSave then lintCheckDiags filename goConfig env else []) ++
        ((if goConfig.vetOnSave then vetCheckDiags filename goConfig env else []) ++
         (if goConfig.coverOnSave then env.coverageResult else [])))) ∧
    (∀ r, check filename goConfig env = .ok r →
      r.length =
        (if goConfig.buildOnSave then (buildCheckDiags filename goConfig env).length else 0) +
        ((if goConfig.lintOnSave then (lintCheckDiags filename goConfig env).length else 0) +
         ((if goConfig.vetOnSave then (vetCheckDiags filename goConfig env).length else 0) +
          (if goConfig.coverOnSave then env.coverageResult.length else 0)))) ∧
    (∀ cwd severity ret ln,
      (processLine cwd severity ret ln).map diagKey = ret.map diagKey ∨
      ∃ k, (processLine cwd severity ret ln).map diagKey = ret.map diagKey ++ [k]) := by
  have hbE := buildCheckE_eq filename goConfig env hb
  have hlE := lintCheckE_eq filename goConfig env hl
  have hvE := vetCheckE_eq filename goConfig env hv
  have hmain : check filename goConfig env = .ok
      ((if goConfig.buildOnSave then buildCheckDiags filename goConfig env else []) ++
       ((if goConfig.lintOnSave then lintCheckDiags filename goConfig env else []) ++
        ((if goConfig.vetOnSave then vetCheckDiags filename goConfig env else []) ++
         (if goConfig.coverOnSave then env.coverageResult else [])))) := by
    unfold check
    cases hB : goConfig.buildOnSave <;> cases hL : goConfig.lintOnSave <;>
      cases hV : goConfig.vetOnSave <;> cases hC : goConfig.coverOnSave <;>
      simp [hbE, hlE, hvE, promiseAll, Except.map]
  refine ⟨hmain, ?_, ?_⟩
  · intro r hr
    rw [hmain] at hr
    have := Except.ok.inj hr
    subst this
    simp [List.length_append, apply_ite List.length]
  · intro cwd severity ret ln
    exact processLine_key_extension cwd severity ret ln

/-- C2 witness: the concatenation statement at the sample configuration with
all four checks enabled and each tool emitting one diagnostic line. -/
theorem check_fixed_order_concat_witness :
    sampleEnv.buildFault = none ∧
    check "/proj/main.go".toList sampleConfig sampleEnv = .ok
      ((if sampleConfig.buildOnSave then
          buildCheckDiags "/proj/main.go".toList sampleConfig sampleEnv else []) ++
       ((if sampleConfig.lintOnSave then
           lintCheckDiags "/proj/main.go".toList sampleConfig sampleEnv else []) ++
        ((if sampleConfig.vetOnSave then
            vetCheckDiags "/proj/main.go".toList sampleConfig sampleEnv else []) ++
         (if sampleConfig.coverOnSave then sampleEnv.coverageResult else [])))) :=
  ⟨rfl, (check_fixed_order_concat "/proj/main.go".toList sampleConfig sampleEnv
    rfl rfl rfl).1⟩

theorem buildCheckE_enoent (filename : List Char) (goConfig : GoConfig)
    (env : CheckEnv) (h : env.buildOutcome.enoent = true) :
    buildCheckE filename goConfig env = .ok [] := by
  unfold buildCheckE runToolWithFault
  rw [if_pos h, runTool_enoent _ _ _ _ _ _ h]
  rfl

theorem lintCheckE_enoent (filename : List Char) (goConfig : GoConfig)
    (env : CheckEnv) (h : env.lintOutcome.enoent = true) :
    lintCheckE filename goConfig env = .ok [] := by
  unfold lintCheckE runToolWithFault
  rw [if_pos h, runTool_enoent _ _ _ _ _ _ h]
  rfl

theorem vetCheckE_enoent (filename : List Char) (goConfig : GoConfig)
    (env : CheckEnv) (h : env.vetOutcome.enoent = true) :
    vetCheckE filename goConfig env = .ok [] := by
  unfold vetCheckE runToolWithFault
  rw [if_pos h, runTool_enoent _ _ _ _ _ _ h]
  rfl

/-- C3: when a tool binary is absent (ENOENT outcome), `runTool` resolves
with an empty diagnostic list and exactly one notification carrying the
configured message; and `check` still resolves, with the other enabled
checks' contributions unchanged — shown for each of the build, lint and
vet checks being the absent one. -/
theorem runTool_absent_binary_degrades :
    (∀ (cmd : List Char) (args : List (List Char)) (cwd severity : List Char)
        (useStdErr : Bool) (nf : List Char) (outcome : ExecOutcome),
      outcome.enoent = true →
      runTool cmd args cwd severity useStdErr nf outcome =
        { diagnostics := [], notifications := [nf] }) ∧
    (∀ (filename : List Char) (goConfig : GoConfig) (env : CheckEnv),
      env.lintFault = none → env.vetFault = none →
      env.buildOutcome.enoent = true →
      check filename goConfig env = .ok
        ((if goConfig.lintOnSave then lintCheckDiags filename goConfig env else []) ++
         ((if goConfig.vetOnSave then vetCheckDiags filename goConfig env else []) ++
          (if goConfig.coverOnSave then env.coverageResult else [])))) ∧
    (∀ (filename : List Char) (goConfig : GoConfig) (env : CheckEnv),
      env.buildFault = none → env.vetFault = none →
      env.lintOutcome.enoent = true →
      check filename goConfig env = .ok
        ((if goConfig.buildOnSave then buildCheckDiags filename goConfig env else []) ++
         ((if goConfig.vetOnSave then vetCheckDiags filename goConfig env else []) ++
          (if goConfig.coverOnSave then env.coverageResult else [])))) ∧
    (∀ (filename : List Char) (goConfig : GoConfig) (env : CheckEnv),
      env.buildFault = none → env.lintFault = none →
      env.vetOutcome.enoent = true →
      check filename goConfig env = .ok
        ((if goConfig.buildOnSave then buildCheckDiags filename goConfig env else []) ++
         ((if goConfig.lintOnSave then lintCheckDiags filename goConfig env else []) ++
          (if goConfig.coverOnSave then env.coverageResult else [])))) := by
  refine ⟨?_, ?_, ?_, ?_⟩
  · intro cmd args cwd severity useStdErr nf outcome h
    exact runTool_enoent cmd args cwd severity useStdErr nf h
  · intro filename goConfig env hl hv he
    have hbE := buildCheckE_enoent filename goConfig env he
    have hlE := lintCheckE_eq filename goConfig env hl
    have hvE := vetCheckE_eq filename goConfig env hv
    unfold check
    cases hB : goConfig.buildOnSave <;> cases hL : goConfig.lintOnSave <;>
      cases hV : goConfig.vetOnSave <;> cases hC : goConfig.coverOnSave <;>
      simp [hbE, hlE, hvE, promiseAll, Except.map]
  · intro filename goConfig env hb hv he
    have hbE := buildCheckE_eq filename goConfig env hb
    have hlE := lintCheckE_enoent filename goConfig env he
    have hvE := vetCheckE_eq filename goConfig env hv
    unfold check
    cases hB : goConfig.buildOnSave <;> cases hL : goConfig.lintOnSave <;>
      cases hV : goConfig.vetOnSave <;> cases hC : goConfig.coverOnSave <;>
      simp [hbE, hlE, hvE, promiseAll, Except.map]
  · intro filename goConfig env hb hl he
    have hbE := buildCheckE_eq filename goConfig env hb
    have hlE := lintCheckE_eq filename goConfig env hl
    have hvE := vetCheckE_enoent filename goConfig env he
    unfold check
    cases hB : goConfig.buildOnSave <;> cases hL : goConfig.lintOnSave <;>
      cases hV : goConfig.vetOnSave <;> cases hC : goConfig.coverOnSave <;>
      simp [hbE, hlE, hvE, promiseAll, Except.map]

/-- C3 witness: the absent-go scenario at the sample configuration, plus one
direct ENOENT run of the tool runner. -/
theorem runTool_absent_binary_degrades_witness :
    sampleEnvNoGo.buildOutcome.enoent = true ∧
    check "/proj/main.go".toList sampleConfig sampleEnvNoGo = .ok
      ((if sampleConfig.lintOnSave then
          lintCheckDiags "/proj/main.go".toList sampleConfig sampleEnvNoGo else []) ++
       ((if sampleConfig.vetOnSave then
           vetCheckDiags "/proj/main.go".toList sampleConfig sampleEnvNoGo else []) ++
        (if sampleConfig.coverOnSave then sampleEnvNoGo.coverageResult else []))) ∧
    runTool [] [] [] [] true "missing".toList
        { enoent := true, stdout := [], stderr := [] } =
      { diagnostics := [], notifications := ["missing".toList] } :=
  ⟨rfl,
   runTool_absent_binary_degrades.2.1 "/proj/main.go".toList sampleConfig sampleEnvNoGo
     rfl rfl rfl,
   runTool_absent_binary_degrades.1 [] [] [] [] true "missing".toList
     { enoent := true, stdout := [], stderr := [] } rfl⟩

/-- C4: an injected internal parse fault in any enabled sub-check whose tool
is present rejects the whole `check` operation: no result list is
returned for that invocation. -/
theorem check_rejects_on_parse_fault (filename : List Char) (goConfig : GoConfig)
    (env : CheckEnv) (e : List Char)
    (h : (goConfig.buildOnSave = true ∧ env.buildFault = some e ∧
            env.buildOutcome.enoent = false) ∨
         (goConfig.lintOnSave = true ∧ env.lintFault = some e ∧
            env.lintOutcome.enoent = false) ∨
         (goConfig.vetOnSave = true ∧ env.vetFault = some e ∧
            env.vetOutcome.enoent = false)) :
    ∃ err, check filename goConfig env = .error err := by
  have key : ∀ ps : List (Except (List Char) (List ICheckResult)),
      Except.error e ∈ ps →
      ∃ err, (promiseAll ps).map List.flatten = .error err := by
    intro ps hm
    obtain ⟨e2, h2⟩ := promiseAll_error_of_mem hm
    exact ⟨e2, by rw [h2]; rfl⟩
  rcases h with ⟨hB, hf, he⟩ | ⟨hL, hf, he⟩ | ⟨hV, hf, he⟩
  · have hbE : buildCheckE filename goConfig env = .error e := by
      unfold buildCheckE runToolWithFault
      rw [if_neg (by simp [he]), hf]
      rfl
    unfold check
    apply key
    simp [hB, hbE]
  · have hlE : lintCheckE filename goConfig env = .error e := by
      unfold lintCheckE runToolWithFault
      rw [if_neg (by simp [he]), hf]
      rfl
    unfold check
    apply key
    simp [hL, hlE]
  · have hvE : vetCheckE filename goConfig env = .error e := by
      unfold vetCheckE runToolWithFault
      rw [if_neg (by simp [he]), hf]
      rfl
    unfold check
    apply key
    simp [hV, hvE]

/-- C4 witness: the sample environment with an injected build parse fault
rejects the whole check. -/
theorem check_rejects_on_parse_fault_witness :
    sampleConfig.buildOnSave = true ∧
    ∃ err, check "/proj/main.go".toList sampleConfig sampleEnvFault = .error err :=
  ⟨rfl, check_rejects_on_parse_fault "/proj/main.go".toList sampleConfig sampleEnvFault
    "boom".toList (Or.inl ⟨rfl, rfl, rfl⟩)⟩

/-- C5: for every invocation and every tool outcome, the `runTool` promise
settles successfully: it resolves with the plain parse result (a possibly
empty diagnostic list plus notifications) and never rejects. -/
theorem runTool_never_rejects (cmd : List Char) (args : List (List Char))
    (cwd severity : List Char) (useStdErr : Bool) (nf : List Char)
    (outcome : ExecOutcome) :
    ∃ r, runToolWithFault none cmd args cwd severity useStdErr nf outcome = .ok r ∧
      r = runTool cmd args cwd severity useStdErr nf outcome :=
  ⟨runTool cmd args cwd severity useStdErr nf outcome,
    runToolWithFault_none cmd args cwd severity useStdErr nf outcome, rfl⟩

/-- C6 (code bug): parsing the raw output
`util.go:5:12:warning: unused variable x` with default severity `error`
yields no diagnostic at all — the column group of the regex accepts at most
one digit, so the two-digit column makes the whole pattern fail and the
line is discarded — instead of the one diagnostic with line 5, column 12
and severity `warning` that the specification describes. -/
theorem scenario_two_digit_column_dropped :
    runTool "/usr/bin/golint".toList [] "/w".toList "error".toList false
        "lint missing".toList
        { enoent := false,
          stdout := "util.go:5:12:warning: unused variable x\n".toList,
          stderr := [] } =
      { diagnostics := [], notifications := [] } ∧
    execCheckRegex "util.go:5:12:warning: unused variable x".toList = none := by
  exact ⟨by decide, by decide⟩

/-- C7: a line beginning with a tab, processed while at least one diagnostic
has already been produced, appends the whole line with a preceding newline
to the message of the most recent diagnostic, produces no new diagnostic
(the length is unchanged), and leaves every earlier diagnostic untouched;
the branch fires independently of what the regex would do with the line. -/
theorem tab_continuation_appends (cwd severity : List Char)
    (ds : List ICheckResult) (d : ICheckResult) (ln : List Char)
    (h : ln.head? = some '\t') :
    processLine cwd severity (ds ++ [d]) ln =
      ds ++ [{ d with msg := d.msg ++ '\n' :: ln }] ∧
    (processLine cwd severity (ds ++ [d]) ln).length = (ds ++ [d]).length := by
  have hcond : ln.head? = some '\t' ∧ ds ++ [d] ≠ ([] : List ICheckResult) :=
    ⟨h, by simp⟩
  have hmain : processLine cwd severity (ds ++ [d]) ln =
      ds ++ [{ d with msg := d.msg ++ '\n' :: ln }] := by
    unfold processLine
    rw [if_pos hcond, List.getLast?_concat, List.dropLast_concat]
  refine ⟨hmain, ?_⟩
  rw [hmain]
  simp

/-- C7 witness: one continuation line appended to a single prior diagnostic. -/
theorem tab_continuation_appends_witness :
    ("\tdetail".toList.head? = some '\t') ∧
    processLine "/w".toList "error".toList ([] ++ [sampleDiag]) "\tdetail".toList =
      [] ++ [{ sampleDiag with msg := sampleDiag.msg ++ '\n' :: "\tdetail".toList }] :=
  ⟨rfl, (tab_continuation_appends "/w".toList "error".toList [] sampleDiag
    "\tdetail".toList rfl).1⟩

/-- C8 counterexample: the tool line `a.go:0:1:err: boom` parses to a
diagnostic whose line number is 0, so the stated invariant `line >= 1`
fails on the code. -/
theorem line_zero_counterexample :
    (runTool "/usr/bin/golint".toList [] "/proj".toList "warning".toList false
        "lint missing".toList
        { enoent := false, stdout := "a.go:0:1:err: boom\n".toList,
          stderr := [] }).diagnostics =
      [{ file := "/proj/a.go".toList, line := 0, char := 1,
         msg := "boom".toList, severity := "err".toList }] ∧
    ¬ (∀ d ∈ (runTool "/usr/bin/golint".toList [] "/proj".toList "warning".toList false
        "lint missing".toList
        { enoent := false, stdout := "a.go:0:1:err: boom\n".toList,
          stderr := [] }).diagnostics, 1 ≤ d.line) := by
  exact ⟨by decide, by decide⟩

/-- C8 (amended: the column is always >= 1 and the file path absolute, while
the line field is whatever number the tool reported and may be 0): every
diagnostic the parser places in a result set has column >= 1 and an
absolute file, and the full `check` result keeps this invariant whenever
the injected coverage diagnostics satisfy it. -/
theorem result_set_invariant :
    (∀ (cmd : List Char) (args : List (List Char)) (cwd severity : List Char)
        (useStdErr : Bool) (nf : List Char) (outcome : ExecOutcome),
      ∀ d ∈ (runTool cmd args cwd severity useStdErr nf outcome).diagnostics,
        1 ≤ d.char ∧ d.file.head? = some '/') ∧
    (∀ (filename : List Char) (goConfig : GoConfig) (env : CheckEnv),
      (∀ d ∈ env.coverageResult, 1 ≤ d.char ∧ d.file.head? = some '/') →
      ∀ r, check filename goConfig env = .ok r →
        ∀ d ∈ r, 1 ≤ d.char ∧ d.file.head? = some '/') := by
  refine ⟨runTool_inv, ?_⟩
  intro filename goConfig env hcov r hr d hd
  unfold check at hr
  rcases except_map_ok hr with ⟨rs, hps, rfl⟩
  rcases List.mem_flatten.mp hd with ⟨chunk, hchunk, hdc⟩
  have hmem := promiseAll_ok_mem hps chunk hchunk
  rcases List.mem_append.mp hmem with h123 | h4
  · rcases List.mem_append.mp h123 with h12 | h3
    · rcases List.mem_append.mp h12 with h1 | h2
      · have hx := (mem_ite_singleton h1).symm
        unfold buildCheckE at hx
        rcases except_map_ok hx with ⟨res, hres, rfl⟩
        rw [runToolWithFault_ok hres] at hdc
        exact runTool_inv _ _ _ _ _ _ _ d hdc
      · have hx := (mem_ite_singleton h2).symm
        unfold lintCheckE at hx
        rcases except_map_ok hx with ⟨res, hres, rfl⟩
        rw [runToolWithFault_ok hres] at hdc
        exact runTool_inv _ _ _ _ _ _ _ d hdc
    · have hx := (mem_ite_singleton h3).symm
      unfold vetCheckE at hx
      rcases except_map_ok hx with ⟨res, hres, rfl⟩
      rw [runToolWithFault_ok hres] at hdc
      exact runTool_inv _ _ _ _ _ _ _ d hdc
  · have hx := Except.ok.inj (mem_ite_singleton h4)
    subst hx
    exact hcov d hdc

/-- C8 witness: the invariant evaluated on the concrete sample check result. -/
theorem result_set_invariant_witness :
    (∀ d ∈ sampleEnv.coverageResult, 1 ≤ d.char ∧ d.file.head? = some '/') ∧
    ∀ d ∈ ([{ file := "/proj/b.go".toList, line := 1, char := 2,
              msg := "m1".toList, severity := "err".toList },
            { file := "/proj/l.go".toList, line := 3, char := 4,
              msg := "m2".toList, severity := "warning".toList },
            { file := "/proj/v.go".toList, line := 5, char := 6,
              msg := "m3".toList, severity := "warning".toList },
            { file := "/proj/c.go".toList, line := 7, char := 1,
              msg := "cover gap".toList, severity := "warning".toList }] :
          List ICheckResult),
      1 ≤ d.char ∧ d.file.head? = some '/' :=
  ⟨by decide,
    result_set_invariant.2 "/proj/main.go".toList sampleConfig sampleEnv (by decide)
      _ rfl⟩

/-- C9: every diagnostic produced from a line matched by the regex has as its
file the working directory resolved against the basename of the reported
path, and the basename discards every directory component of that path. -/
theorem matched_line_resolves_basename (cwd severity : List Char)
    (ret : List ICheckResult) (ln : List Char)
    (p lineStr charStr sev msg : List Char)
    (h : execCheckRegex ln = some (p, lineStr, charStr, sev, msg)) :
    (∃ d, processLine cwd severity ret ln = ret ++ [d] ∧
        d.file = resolvePath cwd (basename p)) ∧
    (∀ dir leaf : List Char, leaf ≠ [] → (∀ c ∈ leaf, (c == '/') = false) →
        basename (dir ++ '/' :: leaf) = leaf) := by
  refine ⟨?_, basename_discards_dir⟩
  have htab : ¬ ln.head? = some '\t' := by
    intro hh
    rw [execCheckRegex_tab_none hh] at h
    cases h
  unfold processLine
  rw [if_neg (fun hc => htab hc.1), h]
  exact ⟨_, rfl, rfl⟩

/-- C9 witness: a tool-reported path with directory components resolves to
the working directory plus its basename. -/
theorem matched_line_resolves_basename_witness :
    execCheckRegex "a/b/util.go:3:7:warning: bad".toList =
      some ("a/b/util.go".toList, ['3'], ['7'], "warning".toList, "bad".toList) ∧
    ∃ d, processLine "/proj".toList "error".toList []
        "a/b/util.go:3:7:warning: bad".toList = [] ++ [d] ∧
      d.file = resolvePath "/proj".toList (basename "a/b/util.go".toList) :=
  ⟨by decide,
    (matched_line_resolves_basename "/proj".toList "error".toList []
      "a/b/util.go:3:7:warning: bad".toList "a/b/util.go".toList ['3'] ['7']
      "warning".toList "bad".toList (by decide)).1⟩

/-- C10: a line beginning with a tab while no diagnostic has yet been
produced is silently discarded: the continuation branch needs a prior
diagnostic, and the leading tab also makes the primary pattern fail. -/
theorem tab_line_without_prior_discarded (cwd severity ln : List Char)
    (h : ln.head? = some '\t') :
    processLine cwd severity [] ln = [] ∧ execCheckRegex ln = none := by
  have hre := execCheckRegex_tab_none h
  refine ⟨?_, hre⟩
  unfold processLine
  rw [if_neg (by simp), hre]

/-- C10 witness: one orphan tab line leaves the diagnostic list empty. -/
theorem tab_line_without_prior_discarded_witness :
    ("\torphan".toList.head? = some '\t') ∧
    processLine "/w".toList "error".toList [] "\torphan".toList = [] :=
  ⟨rfl, (tab_line_without_prior_discarded "/w".toList "error".toList
    "\torphan".toList rfl).1⟩

end GoCheck
